import Mathlib

/-!
Verification development for the editor client of the web_unlocker_tool
repository.  The stateful core of the editor (autosave debouncing,
checkpoint scheduling, restore, citation tokens, outline extraction) is
embedded shallowly: the pure functions of the source are translated into
Lean functions over `List Char` texts and an `Op` delta type, and the
event-driven state (dirty flag, timers, counters, in-flight requests) is
modelled by explicit state records driven by event lists.
-/

namespace WebUnlocker

/-- Editor constant `AUTOSAVE_DEBOUNCE_MS = 2000` from the source. -/
def AUTOSAVE_DEBOUNCE_MS : Nat := 2000

/-- Editor constant `CHECKPOINT_INTERVAL_MS = 4 * 60 * 1000` from the source. -/
def CHECKPOINT_INTERVAL_MS : Nat := 4 * 60 * 1000

/-- Editor constant `CHECKPOINT_CHANGE_THRESHOLD = 700` from the source. -/
def CHECKPOINT_CHANGE_THRESHOLD : Nat := 700

/-- Editor constant `ENABLE_CHECKPOINTS = true` from the source. -/
def ENABLE_CHECKPOINTS : Bool := true

/-- One operation of a content-model delta.  A string insert carries its
text and the (only attribute consulted by the embedded functions) heading
level of its `header` attribute, `none` when the attribute is absent.
Embeds are non-string inserts; `retain`/`delete` ops occur in change
deltas delivered to the `text-change` handler. -/
inductive Op where
  | insertText (s : List Char) (header : Option Nat)
  | insertEmbed
  | retain (n : Nat)
  | delete (n : Nat)
deriving DecidableEq

/-- `estimateDeltaLength` from the source: `reduce` over the ops, adding
`op.insert.length` when `typeof op.insert === "string"` and `1` for every
other op (embeds, retains, deletes alike). -/
def estimateDeltaLength (ops : List Op) : Nat :=
  ops.foldl
    (fun acc op =>
      match op with
      | .insertText s _ => acc + s.length
      | _ => acc + 1)
    0

/-- Is the op an insert (string or embed)?  Used to state when a change
delta consists purely of insertions. -/
def isInsertOp : Op → Bool
  | .insertText _ _ => true
  | .insertEmbed => true
  | _ => false

/-- The number of inserted units in the spec's words: the length of
inserted content, with each embed (non-text insert) counting as one unit
and non-insert ops contributing nothing.  Stated from the spec for
comparison with the source's `estimateDeltaLength`. -/
def specInsertedUnits (ops : List Op) : Nat :=
  ops.foldl
    (fun acc op =>
      match op with
      | .insertText s _ => acc + s.length
      | .insertEmbed => acc + 1
      | _ => acc)
    0

/-- The plain-text projection of a content model: the concatenation of
its string inserts. -/
def plainText (ops : List Op) : List Char :=
  ops.foldl
    (fun acc op =>
      match op with
      | .insertText s _ => acc ++ s
      | _ => acc)
    []

/-- Number of lines of a text, counting the terminating `'\n'` of each
line (the spec's content-model invariant: line boundaries are `\n`
characters, the canonical empty document is one newline insert). -/
def lineCount (text : List Char) : Nat :=
  text.count '\n'

/-- `normalizeDelta` from the source: a missing delta or one whose `ops`
is not an array becomes the canonical empty document `[insert("\n")]`;
any delta that does have an ops array is returned unchanged. -/
def normalizeDelta : Option (List Op) → List Op
  | none => [Op.insertText ['\n'] none]
  | some ops => ops

/-- The citation token string for an id, built from the source's
`citeTokenPrefix = "〔cite:"` and `citeTokenSuffix = "〕"`. -/
def citeToken (citationId : List Char) : List Char :=
  "〔cite:".toList ++ citationId ++ "〕".toList

/-- Does `pattern` occur at the head of `text`?  Character-by-character
comparison, as the substring search of JavaScript `indexOf` performs. -/
def listStartsWith : List Char → List Char → Bool
  | [], _ => true
  | _ :: _, [] => false
  | p :: ps, c :: cs => p == c && listStartsWith ps cs

/-- Scan of `String.prototype.indexOf`: try each position of `suffix` in
turn, `i` being the absolute index of its head in the full text; return
the first absolute index where `token` matches, `none` when there is no
match (JavaScript's `-1`). -/
def firstMatchFrom (token : List Char) : List Char → Nat → Option Nat
  | [], i => if token.isEmpty then some i else none
  | c :: rest, i =>
      if listStartsWith token (c :: rest) then some i
      else firstMatchFrom token rest (i + 1)

/-- `text.indexOf(token, start)` of the source, as an `Option Nat`. -/
def jsIndexOf (text token : List Char) (start : Nat) : Option Nat :=
  firstMatchFrom token (text.drop start) start

/-- The index-collection loop of `removeCitationTokens`:
`index = text.indexOf(token)`, then repeatedly push the index and search
again from `index + token.length`.  The fuel argument bounds the number
of iterations; the wrapper passes `text.length + 1`, which is enough
because each found index advances the start by at least one. -/
def collectTokenIndices (token text : List Char) : Nat → Nat → List Nat
  | _, 0 => []
  | start, fuel + 1 =>
      match jsIndexOf text token start with
      | none => []
      | some i => i :: collectTokenIndices token text (i + token.length) fuel

/-- `quill.deleteText(i, len)` on the plain text: remove `len` characters
starting at index `i`. -/
def deleteTextAt (text : List Char) (i len : Nat) : List Char :=
  text.take i ++ text.drop (i + len)

/-- `removeCitationTokens` from the source, on the plain-text projection:
collect all non-overlapping occurrences of the token left to right, then
delete them in reverse offset order. -/
def removeCitationTokens (text citationId : List Char) : List Char :=
  let token := citeToken citationId
  let indices := collectTokenIndices token text 0 (text.length + 1)
  indices.reverse.foldl (fun t i => deleteTextAt t i token.length) text

/-- The text effect of `insertCitationToken` from the source:
`quill.insertText(insertIndex, `${inText} ${token} `)` — the in-text
label, a space, the citation token and a trailing space are inserted at
the given position of the plain text. -/
def insertCitationTokenText (text : List Char) (pos : Nat)
    (inText citationId : List Char) : List Char :=
  text.take pos ++ (inText ++ [' '] ++ citeToken citationId ++ [' ']) ++ text.drop pos

/-- `s₀ ++ token ++ s₁ ++ token ++ … ++ sₖ`: a text containing the token
exactly between consecutive segments. -/
def interleaveToken (token : List Char) : List (List Char) → List Char
  | [] => []
  | [s] => s
  | s :: r :: rest => s ++ token ++ interleaveToken token (r :: rest)

/-- The absolute offsets of the interleaved token copies when the first
segment starts at `start`. -/
def tokenPositions (tokLen : Nat) : Nat → List (List Char) → List Nat
  | _, [] => []
  | _, [_] => []
  | start, s :: r :: rest =>
      (start + s.length) :: tokenPositions tokLen (start + s.length + tokLen) (r :: rest)

/-! ### Autosave debounce model

The source keeps one `autosaveTimer`; `queueAutosave` clears any pending
timeout and schedules `autosaveDoc` after `AUTOSAVE_DEBOUNCE_MS`, and the
`text-change` / title-`input` handlers set `isDirty = true` before calling
`queueAutosave`.  `autosaveDoc` returns without a save when no document is
open or the dirty flag is clear.  The model drives this with the list of
mutation timestamps: at each mutation the pending deadline (if already
passed) has fired, and the timer is re-armed to `t + delay`. -/

/-- Autosave controller state: the pending debounce deadline
(`autosaveTimer`) and the `isDirty` flag. -/
structure AState where
  timer : Option Nat
  dirty : Bool
deriving DecidableEq

/-- Process a list of mutation timestamps (content or title edits) and
return the timestamps at which a save call (`PUT /api/docs/{id}`) is
issued.  A pending deadline `d` has fired before a mutation at `t`
exactly when `d ≤ t`; a fired timer issues a save only when a document is
open and the dirty flag is set, as `autosaveDoc` checks.  Each mutation
sets the dirty flag and re-arms the timer to `t + delay`
(`queueAutosave`).  After the last mutation the pending timer fires
unconditionally at its deadline. -/
def autosaveBurst (docOpen : Bool) (delay : Nat) : AState → List Nat → List Nat
  | s, [] =>
      match s.timer with
      | some d => if docOpen && s.dirty then [d] else []
      | none => []
  | s, t :: ts =>
      match s.timer with
      | some d =>
          if d ≤ t then
            (if docOpen && s.dirty then [d] else []) ++
              autosaveBurst docOpen delay ⟨some (t + delay), true⟩ ts
          else
            autosaveBurst docOpen delay ⟨some (t + delay), true⟩ ts
      | none => autosaveBurst docOpen delay ⟨some (t + delay), true⟩ ts

/-! ### Checkpoint scheduler model -/

/-- Session-local checkpoint counters of the source:
`changedSinceCheckpoint` and `lastCheckpointAt`. -/
structure CkptState where
  changedSinceCheckpoint : Nat
  lastCheckpointAt : Nat
deriving DecidableEq

/-- `createCheckpointIfNeeded` from the source.  `docOpen` stands for
`currentDocId` being non-null, `now` for `Date.now()`, and `ok` for the
server accepting the `POST …/checkpoints` request.  The returned flag
records whether a checkpoint-create call was issued. -/
def createCheckpointIfNeeded (docOpen force : Bool) (now : Nat) (ok : Bool)
    (s : CkptState) : CkptState × Bool :=
  if !docOpen then (s, false)
  else
    let byTime : Bool := decide (CHECKPOINT_INTERVAL_MS ≤ now - s.lastCheckpointAt)
    let byChange : Bool := decide (CHECKPOINT_CHANGE_THRESHOLD ≤ s.changedSinceCheckpoint)
    if !force && !byTime && !byChange then (s, false)
    else if ok then ({ changedSinceCheckpoint := 0, lastCheckpointAt := now }, true)
    else (s, true)

/-- Line `changedSinceCheckpoint += estimateDeltaLength(delta)` of the
`text-change` handler. -/
def applyChangeUnits (delta : List Op) (s : CkptState) : CkptState :=
  { s with changedSinceCheckpoint := s.changedSinceCheckpoint + estimateDeltaLength delta }

/-- The checkpoint-relevant part of the `text-change` handler: bump the
change counter, then run `createCheckpointIfNeeded()` when
`ENABLE_CHECKPOINTS`. -/
def onTextChange (docOpen : Bool) (now : Nat) (ok : Bool) (delta : List Op)
    (s : CkptState) : CkptState × Bool :=
  let s1 := applyChangeUnits delta s
  if ENABLE_CHECKPOINTS then createCheckpointIfNeeded docOpen false now ok s1
  else (s1, false)

/-- Run a sequence of mutation events `(time, delta)` through the
`text-change` handler, every issued checkpoint call succeeding; return
the final counters and the number of checkpoint-create calls issued. -/
def runTextChanges (docOpen : Bool) : CkptState → List (Nat × List Op) → CkptState × Nat
  | s, [] => (s, 0)
  | s, (t, d) :: es =>
      let r := onTextChange docOpen t true d s
      let rest := runTextChanges docOpen r.1 es
      (rest.1, (if r.2 then 1 else 0) + rest.2)

/-! ### Restore engine model -/

/-- The two persistence calls a restore can issue, in order. -/
inductive ApiCall where
  | checkpointCreate
  | restorePost
deriving DecidableEq

/-- `restoreCheckpoint` from the source, recording the persistence calls
it issues in order.  `haveCheckpointId` models `checkpointId` being
truthy and `confirmed` the `window.confirm` answer; after the guards it
awaits `createCheckpointIfNeeded(true)` and then posts
`/api/docs/{id}/restore`. -/
def restoreCheckpoint (docOpen haveCheckpointId confirmed : Bool) (now : Nat)
    (ok : Bool) (s : CkptState) : List ApiCall × CkptState :=
  if !docOpen || !haveCheckpointId then ([], s)
  else if !confirmed then ([], s)
  else
    let r := createCheckpointIfNeeded docOpen true now ok s
    ((if r.2 then [ApiCall.checkpointCreate] else []) ++ [ApiCall.restorePost], r.1)

/-! ### Save concurrency model

`autosaveDoc` is `async`: it issues a `PUT` and only after the response
arrives clears the dirty flag.  Nothing in the source tracks an in-flight
save, so any trigger of `autosaveDoc` while one is pending issues another
`PUT`.  The model steps a session state through the observable events. -/

/-- Session state for the save-concurrency model: the dirty flag, whether
a debounce timeout is pending, and the number of unresolved `PUT`
requests. -/
structure SaveSt where
  dirty : Bool
  timerPending : Bool
  inflight : Nat
deriving DecidableEq

/-- Events of a single-document session: an edit (`text-change`/title
input, which re-arms the debounce timer), the debounce timer firing, an
editor-blur flush (`selection-change` collapsing to no selection while
dirty), and an in-flight save resolving with success or failure. -/
inductive SEvent where
  | textChange
  | timerFire
  | blurFlush
  | resolveOk
  | resolveFail
deriving DecidableEq

/-- The synchronous prefix of `autosaveDoc`: with a document open, if the
dirty flag is set a `PUT` is issued (one more request in flight);
otherwise it returns at the guard. -/
def autosaveDocCall (s : SaveSt) : SaveSt :=
  if s.dirty then { s with inflight := s.inflight + 1 } else s

/-- One step of the session, a document being open throughout. -/
def saveStep : SaveSt → SEvent → SaveSt
  | s, .textChange => { s with dirty := true, timerPending := true }
  | s, .timerFire => autosaveDocCall { s with timerPending := false }
  | s, .blurFlush => if s.dirty then autosaveDocCall s else s
  | s, .resolveOk => { s with dirty := false, inflight := s.inflight - 1 }
  | s, .resolveFail => { s with inflight := s.inflight - 1 }

/-- Is the event possible in the given state?  The debounce timer can
only fire while pending, and only an unresolved request can resolve. -/
def validEvent (s : SaveSt) : SEvent → Bool
  | .timerFire => s.timerPending
  | .resolveOk => decide (0 < s.inflight)
  | .resolveFail => decide (0 < s.inflight)
  | _ => true

/-- Is the whole event sequence possible from the given state? -/
def validTrace (s : SaveSt) : List SEvent → Bool
  | [] => true
  | e :: es => validEvent s e && validTrace (saveStep s e) es

/-- The in-flight request counts observed after each event. -/
def inflightTrace (s : SaveSt) : List SEvent → List Nat
  | [] => []
  | e :: es => (saveStep s e).inflight :: inflightTrace (saveStep s e) es

/-! ### Outline extractor model -/

/-- An outline entry as built by `buildOutlineFromDelta`: heading level,
display text, and the `index` recorded from `lineStartIndex`. -/
structure OutlineEntry where
  level : Nat
  text : List Char
  index : Nat
deriving DecidableEq

/-- The walker state of `buildOutlineFromDelta`: entries so far, the text
accumulated for the current line, the recorded `lineStartIndex`, and the
running `index`. -/
structure OutlineState where
  outline : List OutlineEntry
  textBuffer : List Char
  lineStartIndex : Nat
  index : Nat
deriving DecidableEq

/-- The whitespace characters removed by `String.prototype.trim` that can
occur in the texts at hand. -/
def jsWhitespace (c : Char) : Bool :=
  c = ' ' || c = '\t' || c = '\n' || c = '\r' || c = '\x0b' || c = '\x0c'

/-- `textBuffer.trim()`: strip whitespace from both ends. -/
def jsTrim (s : List Char) : List Char :=
  ((s.dropWhile jsWhitespace).reverse.dropWhile jsWhitespace).reverse

/-- The placeholder text `` `Heading ${outline.length + 1}` ``. -/
def headingPlaceholder (n : Nat) : List Char :=
  ("Heading " ++ Nat.repr n).toList

/-- `pushLine` from `buildOutlineFromDelta`: if the line's attributes
carry a truthy `header` level between 1 and 3, push an entry whose text
is the trimmed buffer, or the placeholder when that trims to nothing, at
the recorded `lineStartIndex`; then reset the buffer and set
`lineStartIndex` to the current `index` (the newline's own position). -/
def pushLine (attrs : Option Nat) (s : OutlineState) : OutlineState :=
  let out :=
    match attrs with
    | some level =>
        if level ≠ 0 ∧ 1 ≤ level ∧ level ≤ 3 then
          s.outline ++
            [{ level := level
               text :=
                 if jsTrim s.textBuffer = [] then
                   headingPlaceholder (s.outline.length + 1)
                 else jsTrim s.textBuffer
               index := s.lineStartIndex }]
        else s.outline
    | none => s.outline
  { outline := out, textBuffer := [], lineStartIndex := s.index, index := s.index }

/-- One character of a string insert: a newline runs `pushLine` with the
op's attributes and then advances `index`; any other character is
appended to the buffer. -/
def processChar (attrs : Option Nat) (s : OutlineState) (ch : Char) : OutlineState :=
  if ch = '\n' then
    let s' := pushLine attrs s
    { s' with index := s'.index + 1 }
  else
    { s with textBuffer := s.textBuffer ++ [ch], index := s.index + 1 }

/-- One op of the walk: non-string inserts just advance `index` by one;
string inserts are processed character by character. -/
def processOp (s : OutlineState) (op : Op) : OutlineState :=
  match op with
  | .insertText str attrs => str.foldl (processChar attrs) s
  | _ => { s with index := s.index + 1 }

/-- `buildOutlineFromDelta` from the source. -/
def buildOutlineFromDelta (ops : List Op) : List OutlineEntry :=
  (ops.foldl processOp ⟨[], [], 0, 0⟩).outline

/-- The two-heading document of the outline scenario:
`"Intro"` as a level-1 heading followed by `"Details"` as a level-2
heading, in the delta shape the editor stores (heading attributes on the
line's newline op). -/
def introDoc : List Op :=
  [Op.insertText "Intro".toList none, Op.insertText "\n".toList (some 1),
   Op.insertText "Details".toList none, Op.insertText "\n".toList (some 2)]

/-- An edit sequence of 350 backspace-style mutations (each
`[retain 1, delete 1]`, inserting nothing) at times 0..349, followed by
one 700-character insert at time 350: its inserted-unit total is exactly
700, all inside the checkpoint interval. -/
def backspaceBurstEvents : List (Nat × List Op) :=
  (List.range 350).map (fun i => (i, [Op.retain 1, Op.delete 1])) ++
    [(350, [Op.insertText (List.replicate 700 'a') none])]

/-! ## Theorems -/

/-- `estimateDeltaLength` as a sum of per-op units. -/
theorem estimateDeltaLength_eq_sum (ops : List Op) :
    estimateDeltaLength ops =
      (ops.map (fun op =>
        match op with
        | Op.insertText s _ => s.length
        | _ => 1)).sum := by
  rw [List.sum_eq_foldl, List.foldl_map]
  unfold estimateDeltaLength
  congr 1
  funext acc op
  cases op <;> rfl

/-- `specInsertedUnits` as a sum of per-op units. -/
theorem specInsertedUnits_eq_sum (ops : List Op) :
    specInsertedUnits ops =
      (ops.map (fun op =>
        match op with
        | Op.insertText s _ => s.length
        | Op.insertEmbed => 1
        | _ => 0)).sum := by
  rw [List.sum_eq_foldl, List.foldl_map]
  unfold specInsertedUnits
  congr 1
  funext acc op
  cases op <;> rfl

/-- On deltas made purely of inserts, the source's `estimateDeltaLength`
agrees with the spec's inserted-unit count. -/
theorem estimateDeltaLength_insertOnly (ops : List Op)
    (h : ∀ op ∈ ops, isInsertOp op = true) :
    estimateDeltaLength ops = specInsertedUnits ops := by
  rw [estimateDeltaLength_eq_sum, specInsertedUnits_eq_sum]
  congr 1
  apply List.map_congr_left
  intro op hop
  have := h op hop
  cases op <;> simp_all [isInsertOp]

/-- While the debounce timer is armed for a mutation at time `t` and the
dirty flag is set, a burst of further mutations each arriving within the
debounce duration produces exactly one save call, at the deadline armed
by the last mutation. -/
theorem autosaveBurst_armed (delay : Nat) (ts : List Nat) : ∀ t : Nat,
    List.Chain' (fun a b => a ≤ b ∧ b < a + delay) (t :: ts) →
    autosaveBurst true delay ⟨some (t + delay), true⟩ ts =
      [(t :: ts).getLast (List.cons_ne_nil t ts) + delay] := by
  induction ts with
  | nil => intro t _; simp [autosaveBurst]
  | cons u us ih =>
      intro t hchain
      obtain ⟨⟨_, hlt⟩, htail⟩ := List.chain'_cons.mp hchain
      have hnot : ¬ (t + delay ≤ u) := by omega
      show autosaveBurst true delay ⟨some (t + delay), true⟩ (u :: us) = _
      rw [autosaveBurst]
      simp only [hnot, if_false]
      rw [ih u htail]
      simp [List.getLast_cons]

/-- C1.  For every burst of content or title mutations arriving closer
together than the debounce duration (2000 ms), the autosave controller
issues exactly one save call, firing 2000 ms after the last mutation in
the burst: starting idle (no timer armed, clean) with a document open,
the produced save-call list is exactly `[last + AUTOSAVE_DEBOUNCE_MS]`.
Each mutation re-arms the timer to its own time plus the debounce
duration (trailing edge, not leading). -/
theorem autosave_burst_single_save (t0 : Nat) (ts : List Nat)
    (hchain : List.Chain' (fun a b => a ≤ b ∧ b < a + AUTOSAVE_DEBOUNCE_MS) (t0 :: ts)) :
    autosaveBurst true AUTOSAVE_DEBOUNCE_MS ⟨none, false⟩ (t0 :: ts) =
      [(t0 :: ts).getLast (List.cons_ne_nil t0 ts) + AUTOSAVE_DEBOUNCE_MS] := by
  rw [autosaveBurst]
  exact autosaveBurst_armed AUTOSAVE_DEBOUNCE_MS ts t0 hchain

/-- Witness for C1: three mutations at 0 ms, 500 ms and 1000 ms (gaps of
500 ms < 2000 ms) yield exactly one save call, at 3000 ms. -/
theorem autosave_burst_single_save_witness :
    autosaveBurst true AUTOSAVE_DEBOUNCE_MS ⟨none, false⟩ [0, 500, 1000] = [3000] :=
  (autosave_burst_single_save 0 [500, 1000]
    (by simp [List.chain'_cons, AUTOSAVE_DEBOUNCE_MS])).trans (by decide)

/-- A run of `text-change` events that stays below the edit-volume
threshold and inside the checkpoint interval issues no checkpoint call
and just accumulates the change units. -/
theorem runTextChanges_no_trigger (events : List (Nat × List Op)) : ∀ s : CkptState,
    (∀ e ∈ events,
      s.lastCheckpointAt ≤ e.1 ∧ e.1 < s.lastCheckpointAt + CHECKPOINT_INTERVAL_MS) →
    s.changedSinceCheckpoint + (events.map (fun e => estimateDeltaLength e.2)).sum <
      CHECKPOINT_CHANGE_THRESHOLD →
    runTextChanges true s events =
      ({ changedSinceCheckpoint :=
           s.changedSinceCheckpoint + (events.map (fun e => estimateDeltaLength e.2)).sum,
         lastCheckpointAt := s.lastCheckpointAt }, 0) := by
  induction events with
  | nil =>
      intro s _ _
      cases s
      simp [runTextChanges]
  | cons e es ih =>
      obtain ⟨t, d⟩ := e
      intro s hwin hsum
      have hw := hwin (t, d) (List.mem_cons_self _ _)
      have hbt : ¬ (CHECKPOINT_INTERVAL_MS ≤ t - s.lastCheckpointAt) := by omega
      have hsum1 : s.changedSinceCheckpoint + estimateDeltaLength d +
          (es.map (fun e => estimateDeltaLength e.2)).sum < CHECKPOINT_CHANGE_THRESHOLD := by
        simp only [List.map_cons, List.sum_cons] at hsum
        omega
      have hbc : ¬ (CHECKPOINT_CHANGE_THRESHOLD ≤
          s.changedSinceCheckpoint + estimateDeltaLength d) := by omega
      have honx : onTextChange true t true d s =
          ({ changedSinceCheckpoint := s.changedSinceCheckpoint + estimateDeltaLength d,
             lastCheckpointAt := s.lastCheckpointAt }, false) := by
        simp [onTextChange, createCheckpointIfNeeded, applyChangeUnits,
          ENABLE_CHECKPOINTS, hbt, hbc]
      have hrest := ih
        { changedSinceCheckpoint := s.changedSinceCheckpoint + estimateDeltaLength d,
          lastCheckpointAt := s.lastCheckpointAt }
        (fun e he => hwin e (List.mem_cons_of_mem _ he)) hsum1
      rw [runTextChanges, honx]
      simp only [hrest]
      simp [List.map_cons, List.sum_cons, Nat.add_assoc]

/-- A run of `text-change` events inside the checkpoint interval whose
change units reach the threshold exactly issues exactly one checkpoint
call and ends with `changedSinceCheckpoint = 0`. -/
theorem runTextChanges_threshold (events : List (Nat × List Op)) : ∀ s : CkptState,
    (∀ e ∈ events,
      s.lastCheckpointAt ≤ e.1 ∧ e.1 < s.lastCheckpointAt + CHECKPOINT_INTERVAL_MS) →
    (events.map Prod.fst).Pairwise (· ≤ ·) →
    s.changedSinceCheckpoint + (events.map (fun e => estimateDeltaLength e.2)).sum =
      CHECKPOINT_CHANGE_THRESHOLD →
    s.changedSinceCheckpoint < CHECKPOINT_CHANGE_THRESHOLD →
    (runTextChanges true s events).2 = 1 ∧
    (runTextChanges true s events).1.changedSinceCheckpoint = 0 := by
  induction events with
  | nil =>
      intro s _ _ hsum hlt
      simp only [List.map_nil, List.sum_nil, Nat.add_zero] at hsum
      omega
  | cons e es ih =>
      obtain ⟨t, d⟩ := e
      intro s hwin hsorted hsum hlt
      have hw := hwin (t, d) (List.mem_cons_self _ _)
      have hbt : ¬ (CHECKPOINT_INTERVAL_MS ≤ t - s.lastCheckpointAt) := by omega
      have hsum1 : s.changedSinceCheckpoint + estimateDeltaLength d +
          (es.map (fun e => estimateDeltaLength e.2)).sum = CHECKPOINT_CHANGE_THRESHOLD := by
        simp only [List.map_cons, List.sum_cons] at hsum
        omega
      rw [List.map_cons, List.pairwise_cons] at hsorted
      obtain ⟨hhead, htail⟩ := hsorted
      by_cases hbc : CHECKPOINT_CHANGE_THRESHOLD ≤
          s.changedSinceCheckpoint + estimateDeltaLength d
      · -- the threshold is crossed at this mutation: one call, then quiet
        have hz : (es.map (fun e => estimateDeltaLength e.2)).sum = 0 := by omega
        have honx : onTextChange true t true d s =
            ({ changedSinceCheckpoint := 0, lastCheckpointAt := t }, true) := by
          simp [onTextChange, createCheckpointIfNeeded, applyChangeUnits,
            ENABLE_CHECKPOINTS, hbt, hbc]
        have hpos : 0 < CHECKPOINT_CHANGE_THRESHOLD := by decide
        have hrest := runTextChanges_no_trigger es
          { changedSinceCheckpoint := 0, lastCheckpointAt := t }
          (by
            intro e he
            have h1 := hwin e (List.mem_cons_of_mem _ he)
            have h2 : t ≤ e.1 := hhead e.1 (List.mem_map_of_mem Prod.fst he)
            dsimp only
            omega)
          (by dsimp only; omega)
        rw [runTextChanges, honx]
        simp only [hrest]
        simp [hz]
      · -- still below the threshold: no call here, recurse
        have honx : onTextChange true t true d s =
            ({ changedSinceCheckpoint := s.changedSinceCheckpoint + estimateDeltaLength d,
               lastCheckpointAt := s.lastCheckpointAt }, false) := by
          simp [onTextChange, createCheckpointIfNeeded, applyChangeUnits,
            ENABLE_CHECKPOINTS, hbt, hbc]
        have hrest := ih
          { changedSinceCheckpoint := s.changedSinceCheckpoint + estimateDeltaLength d,
            lastCheckpointAt := s.lastCheckpointAt }
          (fun e he => hwin e (List.mem_cons_of_mem _ he)) htail
          (by dsimp only; omega) (by dsimp only; omega)
        rw [runTextChanges, honx]
        simp only []
        exact ⟨by simpa using hrest.1, hrest.2⟩

set_option maxRecDepth 100000 in
/-- C2 counterexample.  With checkpointing enabled, a document open and
a fresh checkpoint state, the sequence of 350 backspace mutations (each
`[retain 1, delete 1]`, inserting nothing) followed by one 700-character
insert accumulates exactly `CHECKPOINT_CHANGE_THRESHOLD = 700` inserted
units, entirely inside the checkpoint interval, yet issues **two**
checkpoint-create calls, not one: `estimateDeltaLength` counts each
retain and delete op as one unit, so the backspaces alone already reach
the threshold. -/
theorem checkpoint_threshold_counterexample :
    (backspaceBurstEvents.map (fun e => specInsertedUnits e.2)).sum =
      CHECKPOINT_CHANGE_THRESHOLD ∧
    (∀ e ∈ backspaceBurstEvents, e.1 < CHECKPOINT_INTERVAL_MS) ∧
    (runTextChanges true ⟨0, 0⟩ backspaceBurstEvents).2 = 2 ∧
    ¬ ((runTextChanges true ⟨0, 0⟩ backspaceBurstEvents).2 = 1) := by
  decide

/-- C2 amended.  With checkpointing enabled and a document open, an edit
sequence that accumulates exactly `CHECKPOINT_CHANGE_THRESHOLD = 700`
units *as the code counts them* — `estimateDeltaLength`: the length of
each string insert, one unit for every other op — all within the
checkpoint interval of the last checkpoint, triggers exactly one
checkpoint-create call, and `changedSinceCheckpoint` is 0 after that
call succeeds.  For insert-only sequences these units coincide with the
claim's inserted units (embeds as one unit), recovering the claim's
scenario. -/
theorem checkpoint_units_threshold_single_call (events : List (Nat × List Op)) (s : CkptState)
    (h0 : s.changedSinceCheckpoint = 0)
    (hsum : (events.map (fun e => estimateDeltaLength e.2)).sum = CHECKPOINT_CHANGE_THRESHOLD)
    (hwin : ∀ e ∈ events,
      s.lastCheckpointAt ≤ e.1 ∧ e.1 < s.lastCheckpointAt + CHECKPOINT_INTERVAL_MS)
    (hsorted : (events.map Prod.fst).Pairwise (· ≤ ·)) :
    (runTextChanges true s events).2 = 1 ∧
    (runTextChanges true s events).1.changedSinceCheckpoint = 0 :=
  runTextChanges_threshold events s hwin hsorted (by omega) (by rw [h0]; decide)

set_option maxRecDepth 8000 in
/-- Witness for the amended C2: two insert mutations of 350 characters
each, 100 ms apart, reach exactly 700 units and trigger exactly one
checkpoint call, resetting the counter. -/
theorem checkpoint_units_threshold_single_call_witness :
    (runTextChanges true ⟨0, 0⟩
      [(0, [Op.insertText (List.replicate 350 'a') none]),
       (100, [Op.insertText (List.replicate 350 'b') none])]).2 = 1 ∧
    (runTextChanges true ⟨0, 0⟩
      [(0, [Op.insertText (List.replicate 350 'a') none]),
       (100, [Op.insertText (List.replicate 350 'b') none])]).1.changedSinceCheckpoint = 0 :=
  checkpoint_units_threshold_single_call _ ⟨0, 0⟩ rfl (by decide) (by decide)
    (by simp [List.pairwise_cons])

/-- C4 counterexample.  The valid execution
edit → debounce timer fires (save 1 issued) → editor blur flush before
save 1 resolves ends with two overlapping in-flight PUTs: the observed
in-flight counts are `[0, 1, 2]`, violating "at most one in-flight save
at any time". -/
theorem overlapping_saves_counterexample :
    validTrace ⟨false, false, 0⟩ [SEvent.textChange, SEvent.timerFire, SEvent.blurFlush] = true ∧
    inflightTrace ⟨false, false, 0⟩ [SEvent.textChange, SEvent.timerFire, SEvent.blurFlush] =
      [0, 1, 2] ∧
    ¬ (∀ n ∈ inflightTrace ⟨false, false, 0⟩
        [SEvent.textChange, SEvent.timerFire, SEvent.blurFlush], n ≤ 1) := by
  decide

/-- C4 amended.  The source does not serialize saves: a flush triggered
by losing editor focus while the dirty flag is set issues its PUT
immediately, incrementing the number of in-flight saves regardless of
how many are already pending — it never waits for a prior save to
resolve. -/
theorem flush_issues_save_immediately (s : SaveSt) (h : s.dirty = true) :
    (saveStep s SEvent.blurFlush).inflight = s.inflight + 1 := by
  simp [saveStep, autosaveDocCall, h]

/-- Witness for the amended C4: a blur flush while one save is already in
flight raises the in-flight count to two. -/
theorem flush_issues_save_immediately_witness :
    (saveStep ⟨true, false, 1⟩ SEvent.blurFlush).inflight = 1 + 1 :=
  flush_issues_save_immediately ⟨true, false, 1⟩ rfl

/-- C5.  With a document open, a checkpoint id present and the user
confirming, `restoreCheckpoint` always issues a force-mode
checkpoint-create call followed by the restore call — for every counter
state (in particular `changedSinceCheckpoint = 0` with the interval not
elapsed) and whether or not the checkpoint POST succeeds. -/
theorem restore_forces_checkpoint_first (now : Nat) (ok : Bool) (s : CkptState) :
    (restoreCheckpoint true true true now ok s).1 =
      [ApiCall.checkpointCreate, ApiCall.restorePost] := by
  cases ok <;> simp [restoreCheckpoint, createCheckpointIfNeeded]

/-- C6 counterexample.  A change delta that inserts nothing — a retain op
plus a delete op, as produced by deleting text — still increments
`changedSinceCheckpoint` by 2 (one unit per non-string-insert op), while
the spec's inserted-unit count for it is 0. -/
theorem noninsert_delta_counted_counterexample :
    estimateDeltaLength [Op.retain 5, Op.delete 3] = 2 ∧
    specInsertedUnits [Op.retain 5, Op.delete 3] = 0 ∧
    (applyChangeUnits [Op.retain 5, Op.delete 3] ⟨0, 0⟩).changedSinceCheckpoint = 2 ∧
    ¬ (estimateDeltaLength [Op.retain 5, Op.delete 3] =
        specInsertedUnits [Op.retain 5, Op.delete 3]) := by
  decide

/-- C6 amended.  `changedSinceCheckpoint` is incremented by
`estimateDeltaLength`, which counts each string insert by its length and
every other op — embeds, but also retains and deletes — as one unit; so
the increment equals the inserted content length (embeds as one unit)
exactly on deltas consisting purely of insert ops. -/
theorem change_units_insert_only (delta : List Op) (s : CkptState)
    (h : ∀ op ∈ delta, isInsertOp op = true) :
    (applyChangeUnits delta s).changedSinceCheckpoint =
      s.changedSinceCheckpoint + specInsertedUnits delta := by
  simp [applyChangeUnits, estimateDeltaLength_insertOnly delta h]

/-- Witness for the amended C6: inserting `"hi"` plus one embed adds
exactly 3 units. -/
theorem change_units_insert_only_witness :
    (applyChangeUnits [Op.insertText "hi".toList none, Op.insertEmbed]
        ⟨3, 0⟩).changedSinceCheckpoint =
      3 + specInsertedUnits [Op.insertText "hi".toList none, Op.insertEmbed] :=
  change_units_insert_only [Op.insertText "hi".toList none, Op.insertEmbed] ⟨3, 0⟩ (by decide)

/-- C8 counterexample.  `normalizeDelta` passes any delta that has an ops
array through unchanged, so for the input `{ops: []}` the output's
plain-text projection has line count 0, refuting "line count ≥ 1 for
every content model produced by normalize". -/
theorem normalize_line_count_counterexample :
    normalizeDelta (some []) = [] ∧
    lineCount (plainText (normalizeDelta (some []))) = 0 ∧
    ¬ (1 ≤ lineCount (plainText (normalizeDelta (some [])))) := by
  decide

/-- C8 amended.  `normalizeDelta` never fails: a missing or malformed
input (no ops array) yields the canonical empty document
`[insert("\n")]`, whose plain-text projection has line count 1; every
input that does have an ops array is returned unchanged (so the
line-count ≥ 1 guarantee holds for the malformed branch, not for all
inputs). -/
theorem normalize_total_canonical :
    normalizeDelta none = [Op.insertText ['\n'] none] ∧
    lineCount (plainText (normalizeDelta none)) = 1 ∧
    ∀ ops : List Op, normalizeDelta (some ops) = ops :=
  ⟨rfl, by decide, fun _ => rfl⟩

/-- C9.  Evaluating `buildOutlineFromDelta` on the two-heading document:
two entries are produced in order with levels 1 and 2, but while the
`"Intro"` entry's offset 0 is its line start, the `"Details"` entry's
offset is 5 — the position of the previous line's newline — although the
`"Details"` line starts at offset 6 of the plain-text projection
(character 5 is `'\n'`, character 6 is `'D'`).  `pushLine` records
`lineStartIndex = index` before `index` is advanced past the newline. -/
theorem outline_offset_off_by_one :
    buildOutlineFromDelta introDoc =
      [⟨1, "Intro".toList, 0⟩, ⟨2, "Details".toList, 5⟩] ∧
    plainText introDoc = "Intro\nDetails\n".toList ∧
    (plainText introDoc).get? 5 = some '\n' ∧
    (plainText introDoc).get? 6 = some 'D' := by
  decide

/-- C10.  At any reachable walker state, a line break carrying a heading
attribute of level 1–3 whose accumulated text trims to nothing still
yields an outline entry, and that entry's text is the placeholder
`"Heading N"` with `N` one more than the number of entries emitted
before it. -/
theorem empty_heading_placeholder (s : OutlineState) (level : Nat)
    (h1 : 1 ≤ level) (h2 : level ≤ 3) (h3 : jsTrim s.textBuffer = []) :
    (pushLine (some level) s).outline =
      s.outline ++ [⟨level, headingPlaceholder (s.outline.length + 1), s.lineStartIndex⟩] := by
  have h0 : level ≠ 0 := by omega
  simp [pushLine, h0, h1, h2, h3]

/-- Witness for C10: a level-2 heading line whose buffer is two spaces,
with no entries emitted yet, yields the placeholder `"Heading 1"`. -/
theorem empty_heading_placeholder_witness :
    (pushLine (some 2) ⟨[], [' ', ' '], 7, 9⟩).outline =
      ([] : List OutlineEntry) ++ [⟨2, headingPlaceholder (0 + 1), 7⟩] :=
  empty_heading_placeholder ⟨[], [' ', ' '], 7, 9⟩ 2 (by decide) (by decide) (by decide)

/-- A pattern matches at the head of itself followed by anything. -/
theorem listStartsWith_self_append (token r : List Char) :
    listStartsWith token (token ++ r) = true := by
  induction token with
  | nil => rfl
  | cons c cs ih => simp [listStartsWith, ih]

/-- The `indexOf` scan skips over a region free of the pattern's first
character. -/
theorem firstMatchFrom_append (d : Char) (tr s : List Char) (hs : d ∉ s) :
    ∀ (r : List Char) (i : Nat),
      firstMatchFrom (d :: tr) (s ++ r) i = firstMatchFrom (d :: tr) r (i + s.length) := by
  induction s with
  | nil => intro r i; simp
  | cons c cs ih =>
      intro r i
      rw [List.mem_cons, not_or] at hs
      obtain ⟨hdc, hcs⟩ := hs
      have hne : (d == c) = false := beq_eq_false_iff_ne.mpr hdc
      show firstMatchFrom (d :: tr) (c :: (cs ++ r)) i = _
      rw [firstMatchFrom]
      simp only [listStartsWith, hne, Bool.false_and, if_false]
      rw [ih hcs r (i + 1)]
      have harith : i + 1 + cs.length = i + (c :: cs).length := by
        simp only [List.length_cons]
        omega
      rw [harith]
      simp

/-- The `indexOf` scan finds nothing in a text free of the pattern's
first character. -/
theorem firstMatchFrom_none (d : Char) (tr s : List Char) (hs : d ∉ s) (i : Nat) :
    firstMatchFrom (d :: tr) s i = none := by
  have h := firstMatchFrom_append d tr s hs [] i
  simpa [firstMatchFrom] using h

/-- The `indexOf` scan finds the pattern at the head immediately. -/
theorem firstMatchFrom_head (d : Char) (tr r : List Char) (i : Nat) :
    firstMatchFrom (d :: tr) ((d :: tr) ++ r) i = some i := by
  show firstMatchFrom (d :: tr) (d :: (tr ++ r)) i = some i
  rw [firstMatchFrom]
  have := listStartsWith_self_append (d :: tr) r
  simp only [List.cons_append] at this
  simp [this]

/-- The index-collection loop, on a text whose suffix from `start` is an
interleaving of token copies between segments free of the token's first
character, returns exactly the interleaved token offsets. -/
theorem collectTokenIndices_interleave (d : Char) (tr : List Char) :
    ∀ (segs : List (List Char)) (text : List Char) (start fuel : Nat),
      (∀ s ∈ segs, d ∉ s) →
      text.drop start = interleaveToken (d :: tr) segs →
      segs.length ≤ fuel →
      collectTokenIndices (d :: tr) text start fuel =
        tokenPositions (d :: tr).length start segs := by
  intro segs
  induction segs with
  | nil =>
      intro text start fuel _ hdrop _
      have hidx : jsIndexOf text (d :: tr) start = none := by
        rw [jsIndexOf, hdrop]
        show firstMatchFrom (d :: tr) [] start = none
        simp [firstMatchFrom]
      cases fuel with
      | zero => rfl
      | succ f =>
          rw [collectTokenIndices, hidx]
          rfl
  | cons s segs' ih =>
      cases segs' with
      | nil =>
          intro text start fuel hfree hdrop _
          have hidx : jsIndexOf text (d :: tr) start = none := by
            rw [jsIndexOf, hdrop]
            exact firstMatchFrom_none d tr s (hfree s (List.mem_cons_self _ _)) start
          cases fuel with
          | zero => rfl
          | succ f =>
              rw [collectTokenIndices, hidx]
              rfl
      | cons r rest =>
          intro text start fuel hfree hdrop hfuel
          cases fuel with
          | zero => simp at hfuel
          | succ f =>
              have hs : d ∉ s := hfree s (List.mem_cons_self _ _)
              have hdrop' : text.drop start =
                  s ++ ((d :: tr) ++ interleaveToken (d :: tr) (r :: rest)) := by
                rw [hdrop]
                simp [interleaveToken]
              have hidx : jsIndexOf text (d :: tr) start = some (start + s.length) := by
                rw [jsIndexOf, hdrop', firstMatchFrom_append d tr s hs]
                exact firstMatchFrom_head d tr _ _
              have hdrop2 : text.drop (start + s.length + (d :: tr).length) =
                  interleaveToken (d :: tr) (r :: rest) := by
                have h1 : (text.drop start).drop (s.length + (d :: tr).length) =
                    interleaveToken (d :: tr) (r :: rest) := by
                  rw [hdrop']
                  rw [← List.append_assoc]
                  have hlen : s.length + (d :: tr).length = (s ++ (d :: tr)).length := by
                    simp [List.length_append]
                  rw [hlen, List.drop_left]
                rw [List.drop_drop] at h1
                have harith : start + s.length + (d :: tr).length =
                    start + (s.length + (d :: tr).length) := by omega
                rw [harith]
                exact h1
              have hrec := ih text (start + s.length + (d :: tr).length) f
                (fun u hu => hfree u (List.mem_cons_of_mem _ hu)) hdrop2
                (by simp at hfuel ⊢; omega)
              rw [collectTokenIndices, hidx]
              show (start + s.length) :: collectTokenIndices (d :: tr) text
                  (start + s.length + (d :: tr).length) f = _
              rw [hrec]
              rfl

/-- Deleting the interleaved token occurrences from right to left leaves
exactly the concatenation of the segments. -/
theorem foldr_delete_interleave (token : List Char) :
    ∀ (segs : List (List Char)) (pre : List Char),
      (tokenPositions token.length pre.length segs).foldr
        (fun i t => deleteTextAt t i token.length) (pre ++ interleaveToken token segs) =
      pre ++ segs.join := by
  intro segs
  induction segs with
  | nil => intro pre; simp [interleaveToken, tokenPositions]
  | cons s segs' ih =>
      cases segs' with
      | nil => intro pre; simp [interleaveToken, tokenPositions]
      | cons r rest =>
          intro pre
          have hbase : pre ++ interleaveToken token (s :: r :: rest) =
              (pre ++ s ++ token) ++ interleaveToken token (r :: rest) := by
            simp only [interleaveToken]
            simp [List.append_assoc]
          have hlen : pre.length + s.length + token.length = (pre ++ s ++ token).length := by
            simp [List.length_append]
            omega
          show ((pre.length + s.length) ::
              tokenPositions token.length (pre.length + s.length + token.length)
                (r :: rest)).foldr _ _ = _
          rw [List.foldr_cons, hbase, hlen, ih (pre ++ s ++ token)]
          show deleteTextAt ((pre ++ s ++ token) ++ (r :: rest).join)
              (pre.length + s.length) token.length = _
          rw [deleteTextAt]
          have htake : ((pre ++ s ++ token) ++ (r :: rest).join).take (pre.length + s.length) =
              pre ++ s := by
            have h1 : (pre ++ s ++ token) ++ (r :: rest).join =
                (pre ++ s) ++ (token ++ (r :: rest).join) := by
              simp [List.append_assoc]
            have h2 : pre.length + s.length = (pre ++ s).length := by
              simp [List.length_append]
            rw [h1, h2, List.take_left]
          have hdrop : ((pre ++ s ++ token) ++ (r :: rest).join).drop
              (pre.length + s.length + token.length) = (r :: rest).join := by
            rw [hlen, List.drop_left]
          rw [htake, hdrop]
          simp [List.append_assoc]

/-- With a nonempty token, an interleaving of `k` segments is at least
`k - 1` characters long, so the fuel `text.length + 1` suffices for the
collection loop. -/
theorem interleaveToken_length_bound (token : List Char) (htok : 1 ≤ token.length) :
    ∀ segs : List (List Char), segs.length ≤ (interleaveToken token segs).length + 1 := by
  intro segs
  induction segs with
  | nil => simp [interleaveToken]
  | cons s segs' ih =>
      cases segs' with
      | nil => simp [interleaveToken]
      | cons r rest =>
          simp only [interleaveToken, List.length_cons, List.length_append] at ih ⊢
          omega

/-- The citation token's first character `'〔'` does not occur in its
tail when the citation id is free of it. -/
theorem citeToken_tail_free (citationId : List Char) (hid : '〔' ∉ citationId) :
    '〔' ∉ "cite:".toList ++ citationId ++ "〕".toList := by
  intro hmem
  rcases List.mem_append.mp hmem with h | h
  · rcases List.mem_append.mp h with h | h
    · exact absurd h (by decide)
    · exact hid h
  · exact absurd h (by decide)

/-- `removeCitationTokens` on an interleaving of token copies between
segments free of the delimiter character deletes exactly the token
copies. -/
theorem removeCitationTokens_interleave (citationId : List Char) (segs : List (List Char))
    (hs : ∀ s ∈ segs, '〔' ∉ s) (hid : '〔' ∉ citationId) :
    removeCitationTokens (interleaveToken (citeToken citationId) segs) citationId =
      segs.join := by
  have htok : citeToken citationId =
      '〔' :: ("cite:".toList ++ citationId ++ "〕".toList) := by
    simp [citeToken]
  have htail := citeToken_tail_free citationId hid
  have hfuel := interleaveToken_length_bound (citeToken citationId)
    (by rw [htok]; simp) segs
  have hcollect := collectTokenIndices_interleave '〔'
    ("cite:".toList ++ citationId ++ "〕".toList) segs
    (interleaveToken (citeToken citationId) segs) 0
    ((interleaveToken (citeToken citationId) segs).length + 1) hs
    (by rw [List.drop_zero, htok]) (by omega)
  rw [removeCitationTokens]
  simp only [← htok] at hcollect
  rw [hcollect, List.foldl_reverse]
  have hfold := foldr_delete_interleave (citeToken citationId) segs []
  simp only [List.nil_append, List.length_nil] at hfold
  exact hfold

/-- C3 counterexample.  Inserting citation `"c1"` with label
`"(source)"` at offset 5 of `"Hello\n"` and then removing its tokens
yields `"Hello(source)  \n"`, not the pre-insert text `"Hello\n"` —
`removeCitationTokens` deletes only the token, never the in-text label
and the two surrounding spaces that `insertCitationToken` added. -/
theorem roundtrip_counterexample :
    removeCitationTokens
        (insertCitationTokenText "Hello\n".toList 5 "(source)".toList "c1".toList)
        "c1".toList =
      "Hello(source)  \n".toList ∧
    ¬ (removeCitationTokens
        (insertCitationTokenText "Hello\n".toList 5 "(source)".toList "c1".toList)
        "c1".toList = "Hello\n".toList) := by
  constructor
  · rfl
  · decide

/-- C3 amended.  For any plain text, position, in-text label and
citation id all free of the token-delimiter character `'〔'`, applying
`insertCitationToken` and then `removeCitationTokens` for the same id
returns the plain-text projection to its pre-insert form *plus* the
leftover in-text label and two spaces at the insertion position. -/
theorem insert_remove_roundtrip_residual (text inTextLabel citationId : List Char)
    (pos : Nat) (h1 : '〔' ∉ text) (h2 : '〔' ∉ inTextLabel) (h3 : '〔' ∉ citationId) :
    removeCitationTokens (insertCitationTokenText text pos inTextLabel citationId)
        citationId =
      text.take pos ++ inTextLabel ++ [' ', ' '] ++ text.drop pos := by
  have hA : '〔' ∉ text.take pos ++ (inTextLabel ++ [' ']) := by
    intro hmem
    rcases List.mem_append.mp hmem with h | h
    · exact h1 (List.take_subset _ _ h)
    · rcases List.mem_append.mp h with h | h
      · exact h2 h
      · exact absurd h (by decide)
  have hB : '〔' ∉ [' '] ++ text.drop pos := by
    intro hmem
    rcases List.mem_append.mp hmem with h | h
    · exact absurd h (by decide)
    · exact h1 (List.drop_subset _ _ h)
  have heq : insertCitationTokenText text pos inTextLabel citationId =
      interleaveToken (citeToken citationId)
        [text.take pos ++ (inTextLabel ++ [' ']), [' '] ++ text.drop pos] := by
    simp [insertCitationTokenText, interleaveToken, List.append_assoc]
  have key := removeCitationTokens_interleave citationId
    [text.take pos ++ (inTextLabel ++ [' ']), [' '] ++ text.drop pos]
    (by
      intro u hu
      rcases List.mem_cons.mp hu with h | h
      · rw [h]; exact hA
      · rcases List.mem_cons.mp h with h' | h'
        · rw [h']; exact hB
        · simp at h')
    h3
  rw [heq, key]
  simp [List.append_assoc]

/-- Witness for the amended C3: inserting citation `"c9"` with label
`"(x)"` at offset 2 of `"Hi\n"` and removing its tokens leaves
`"Hi(x)  \n"` — the pre-insert text with the label and two spaces at
the insertion position. -/
theorem insert_remove_roundtrip_residual_witness :
    removeCitationTokens (insertCitationTokenText "Hi\n".toList 2 "(x)".toList "c9".toList)
        "c9".toList =
      "Hi\n".toList.take 2 ++ "(x)".toList ++ [' ', ' '] ++ "Hi\n".toList.drop 2 :=
  insert_remove_roundtrip_residual "Hi\n".toList "(x)".toList "c9".toList 2
    (by decide) (by decide) (by decide)

/-- C7 counterexample.  The text `"〔" ++ token ++ token ++ token ++
"cite:x〕"` for id `"x"` contains the token exactly three times (the
collection scan finds offsets 1, 9 and 17), yet after
`removeCitationTokens` the deletions juxtapose the leading `"〔"` with
the trailing `"cite:x〕"` into a fresh copy of the token, so the
resulting plain-text projection still contains one occurrence — not
zero. -/
theorem remove_all_counterexample :
    collectTokenIndices (citeToken ['x'])
        ('〔' :: (citeToken ['x'] ++ citeToken ['x'] ++ citeToken ['x'] ++ "cite:x〕".toList))
        0
        (('〔' :: (citeToken ['x'] ++ citeToken ['x'] ++ citeToken ['x'] ++
          "cite:x〕".toList)).length + 1) = [1, 9, 17] ∧
    removeCitationTokens
        ('〔' :: (citeToken ['x'] ++ citeToken ['x'] ++ citeToken ['x'] ++ "cite:x〕".toList))
        ['x'] = citeToken ['x'] ∧
    ¬ (firstMatchFrom (citeToken ['x'])
        (removeCitationTokens
          ('〔' :: (citeToken ['x'] ++ citeToken ['x'] ++ citeToken ['x'] ++
            "cite:x〕".toList))
          ['x']) 0 = none) := by
  refine ⟨rfl, rfl, ?_⟩
  decide

/-- C7 amended.  When the delimiter character `'〔'` occurs in the
plain text only as the first character of copies of the token — the text
is an interleaving of token copies between delimiter-free segments, the
id itself delimiter-free — `removeCitationTokens` deletes every
occurrence of the exact token string (found left-to-right and deleted in
reverse offset order), and the resulting projection contains zero
occurrences of the token. -/
theorem remove_all_tokens_clean (citationId : List Char) (segs : List (List Char))
    (hs : ∀ s ∈ segs, '〔' ∉ s) (hid : '〔' ∉ citationId) :
    removeCitationTokens (interleaveToken (citeToken citationId) segs) citationId =
      segs.join ∧
    firstMatchFrom (citeToken citationId) segs.join 0 = none := by
  constructor
  · exact removeCitationTokens_interleave citationId segs hs hid
  · have hjoin : '〔' ∉ segs.join := by
      intro hmem
      obtain ⟨u, hu, hcu⟩ := List.mem_join.mp hmem
      exact hs u hu hcu
    have htok : citeToken citationId =
        '〔' :: ("cite:".toList ++ citationId ++ "〕".toList) := by
      simp [citeToken]
    rw [htok]
    exact firstMatchFrom_none '〔' _ _ hjoin 0

/-- Witness for the amended C7: a prose text with the token for id
`"z"` inserted three times between delimiter-free segments comes back as
the concatenation of the segments, with no occurrence left. -/
theorem remove_all_tokens_clean_witness :
    removeCitationTokens
        (interleaveToken (citeToken "z".toList)
          ["ab".toList, "cd".toList, "ef".toList, "gh".toList]) "z".toList =
      ["ab".toList, "cd".toList, "ef".toList, "gh".toList].join ∧
    firstMatchFrom (citeToken "z".toList)
        ["ab".toList, "cd".toList, "ef".toList, "gh".toList].join 0 = none :=
  remove_all_tokens_clean "z".toList
    ["ab".toList, "cd".toList, "ef".toList, "gh".toList] (by decide) (by decide)

end WebUnlocker
